import Mathlib

/-!
Verification development for the mythicbeasts-client-go transport core.

The Go source is shallowly embedded: pure functions become Lean functions,
the token state becomes an explicit record threaded through the operations,
machine time becomes `Int`/`Nat` instants, and fallible operations return
`Except`/`Option`.  Each definition is translated from the corresponding
Go function (file and symbol noted in its doc comment).
-/

namespace Mythic

/-- Go `error` values as the client produces them: the `context.Canceled`
sentinel returned by `ctx.Err()`, a plain message built by `errors.New` /
`fmt.Errorf` without `%w`, or a wrapping error built by `fmt.Errorf` with
`%w` (outer text plus the wrapped inner error). -/
inductive GoError where
  | ctxCanceled : GoError
  | msg (s : String) : GoError
  | wrapped (outer : String) (inner : GoError) : GoError
deriving DecidableEq, Repr

/-- One `time.Second` in nanoseconds, as Go's `time.Duration` counts. -/
def second : Int := 1000000000

/-- From `client.go` `tokenExpired(expiresIn time.Duration, lastUsedAt time.Time) bool`.
`now` stands for `time.Now()` so that `time.Since(lastUsedAt) = now - t`;
`lastUsedAt = none` models the zero `time.Time` (`IsZero()`). -/
def tokenExpired (now expiresIn : Int) (lastUsedAt : Option Int) : Bool :=
  if expiresIn ≤ 0 ∨ lastUsedAt = none then false
  else
    decide (now - lastUsedAt.getD 0 ≥
      (if expiresIn - 10 * second < 0 then 0 else expiresIn - 10 * second))

/-- The token-related fields of `Client` (client.go) that are read and written
under `authMu`: `Token`, `tokenExpiresIn`, `tokenLastUsedAt`, plus the
immutable credentials (`Auth`) reduced to the only property the code tests
(`KeyID != "" && Secret != ""`), and an instrumentation counter of completed
sign-in exchanges. -/
structure GState where
  token : String
  expiresIn : Int
  lastUsedAt : Option Int
  hasCreds : Bool
  signIns : Nat
deriving DecidableEq, Repr

/-- The fast-path decision of `ensureToken` (client.go, lines 128-145) on one
consistent snapshot of the guarded fields taken under `authMu.RLock`; the
re-check under the exclusive lock (lines 150-160) runs the identical decision
on the current state.  `some tok` means the call returns `tok` without
signing in; `none` means it proceeds to the sign-in exchange. -/
def fastCheck (now : Int) (g : GState) : Option String :=
  if g.token ≠ "" ∧ (g.hasCreds = false ∨ tokenExpired now g.expiresIn g.lastUsedAt = false)
  then some g.token
  else if g.hasCreds = false then some ""
  else none

/-- The slow path of `ensureToken` under `authMu.Lock` (client.go, lines
147-170): re-check the condition, then perform the sign-in exchange and
install the fresh token, its lifetime, and an unset last-used timestamp.
`sres` is the outcome of `signIn` (auth.go): on success the
`access_token` and `expires_in` (in seconds, scaled by `time.Second` on
store).  Returns (new guarded state, returned token, returned error). -/
def lockedRefresh (now : Int) (sres : Except GoError (String × Int)) (g : GState) :
    GState × String × Option GoError :=
  match fastCheck now g with
  | some tok => (g, tok, none)
  | none =>
    match sres with
    | .error e => (g, "", some e)
    | .ok (t, ei) =>
      ({ g with
          token := t
          expiresIn := ei * second
          lastUsedAt := none
          signIns := g.signIns + 1 }, t, none)

/-- One complete uninterfered `ensureToken` call: fast path, then the locked
slow path. -/
def ensureTokenRun (now : Int) (sres : Except GoError (String × Int)) (g : GState) :
    GState × String × Option GoError :=
  match fastCheck now g with
  | some tok => (g, tok, none)
  | none => lockedRefresh now sres g

/-- Progress of one goroutine executing `ensureToken`. -/
inductive TState where
  | start : TState
  | needLock : TState
  | done (tok : String) (err : Option GoError) : TState
deriving DecidableEq, Repr

/-- A client instance shared by several goroutines: the guarded token state
plus each caller's progress. -/
structure Sys where
  g : GState
  th : List TState
deriving DecidableEq, Repr

/-- Interleaving semantics of N concurrent `ensureToken` calls on one client.
The fast path reads one consistent snapshot under `authMu.RLock`, and the
slow path runs wholly under the exclusive `authMu.Lock`, so no other access
to the guarded fields can interleave with either: each is one atomic step.
The scheduler freely picks which caller moves and at what time `now`. -/
inductive SysStep (sres : Except GoError (String × Int)) : Sys → Sys → Prop where
  | fastHit (s : Sys) (now : Int) (i : Nat) (tok : String) :
      s.th[i]? = some .start → fastCheck now s.g = some tok →
      SysStep sres s ⟨s.g, s.th.set i (.done tok none)⟩
  | fastMiss (s : Sys) (now : Int) (i : Nat) :
      s.th[i]? = some .start → fastCheck now s.g = none →
      SysStep sres s ⟨s.g, s.th.set i .needLock⟩
  | locked (s : Sys) (now : Int) (i : Nat) :
      s.th[i]? = some .needLock →
      SysStep sres s ⟨(lockedRefresh now sres s.g).1,
        s.th.set i (.done (lockedRefresh now sres s.g).2.1 (lockedRefresh now sres s.g).2.2)⟩

/-- All interleavings: reflexive-transitive closure of single steps. -/
def Reach (sres : Except GoError (String × Int)) : Sys → Sys → Prop :=
  Relation.ReflTransGen (SysStep sres)

/-- Initial system: a client that holds no token yet but has credentials
configured, with `n` callers about to enter `ensureToken`. -/
def sysInit (n : Nat) (expiresIn0 : Int) (lastUsedAt0 : Option Int) : Sys :=
  ⟨⟨"", expiresIn0, lastUsedAt0, true, 0⟩, List.replicate n .start⟩

/-- Inductive invariant for the fresh-token race: either nobody has signed in
yet (token still empty, no caller finished), or exactly one sign-in has
happened, the fresh token `T` is installed with an unset last-used
timestamp, and every finished caller observed `T`. -/
def EnsureInv (T : String) (n : Nat) (s : Sys) : Prop :=
  s.g.hasCreds = true ∧ s.th.length = n ∧
  ((s.g.token = "" ∧ s.g.signIns = 0 ∧ ∀ t ∈ s.th, t = .start ∨ t = .needLock) ∨
   (s.g.token = T ∧ s.g.lastUsedAt = none ∧ s.g.signIns = 1 ∧
     ∀ t ∈ s.th, t = .start ∨ t = .needLock ∨ t = .done T none))

/-- Split a character list at every `'/'`, as the `strings.Cut` loop of
net/url's `resolvePath` consumes its input (equivalently `strings.Split`);
the result is always non-empty. -/
def splitSlash : List Char → List (List Char)
  | [] => [[]]
  | c :: rest =>
    if c = '/' then [] :: splitSlash rest
    else
      match splitSlash rest with
      | [] => [[c]]
      | s :: ss => (c :: s) :: ss

/-- One step of the dot-segment loop of net/url's `resolvePath`.  The state is
(the output built so far minus its fixed leading `'/'`, the `first` flag).
`"."` is dropped; `".."` truncates the output at its last `'/'`
(`strings.LastIndexByte`), resetting to the start when there is none;
any other segment is appended, with a separating `'/'` unless first. -/
def dotStep (st : List Char × Bool) (elem : List Char) : List Char × Bool :=
  if elem = ['.'] then (st.1, false)
  else if elem = ['.', '.'] then
    match st.1.reverse.dropWhile (· ≠ '/') with
    | [] => ([], true)
    | _ :: rest => (rest.reverse, st.2)
  else ((if st.2 then st.1 ++ elem else st.1 ++ '/' :: elem), false)

/-- The dot-segment pass of net/url's `resolvePath`: run the loop over the
slash-split segments, re-append a `'/'` when the final segment was `"."` or
`".."`, and drop the doubled leading slash (`if len(r) > 1 && r[1] == '/'`). -/
def removeDotSegments (full : List Char) : List Char :=
  let segs := splitSlash full
  let st := segs.foldl dotStep ([], true)
  let lastElem := segs.getLastD []
  let r := '/' :: st.1 ++ (if lastElem = ['.'] ∨ lastElem = ['.', '.'] then ['/'] else [])
  match r with
  | a :: b :: rest => if b = '/' then b :: rest else a :: b :: rest
  | other => other

/-- The `full` string of net/url's `resolvePath`: an empty ref keeps the
base; a ref without a leading `'/'` is appended to the base truncated
just after its last `'/'` (`base[:strings.LastIndex(base, "/")+1]`);
a rooted ref replaces the base. -/
def resolveFull (base ref : List Char) : List Char :=
  if ref = [] then base
  else if ref.head? ≠ some '/' then (base.reverse.dropWhile (· ≠ '/')).reverse ++ ref
  else ref

/-- net/url `resolvePath(base, ref string) string` on character lists:
pick `full`, then (unless it is empty) remove dot segments. -/
def resolvePathList (base ref : List Char) : List Char :=
  if resolveFull base ref = [] then []
  else removeDotSegments (resolveFull base ref)

/-- The components of a parsed `net/url.URL` that this client reads or writes:
`Scheme`, `Host`, `Path`, `RawQuery`, `Fragment` (`Opaque` and `User` never
arise from the client's inputs and are omitted).  The path is kept as a
character list so the path arithmetic above applies directly. -/
structure URL where
  scheme : String
  host : String
  path : List Char
  rawQuery : String
  fragment : String
deriving DecidableEq, Repr

/-- `url.IsAbs`: a URL is absolute when it has a scheme. -/
def URL.isAbs (u : URL) : Bool := u.scheme ≠ ""

/-- net/url `(*URL).ResolveReference` for references without `Opaque` or
`User` components (the only references `NewRequest` builds, and all our
`URL` values can express): inherit the base scheme when the reference has
none; an authority-carrying reference stands alone; otherwise inherit host,
resolve the path against the base path, and inherit query (and fragment)
only for an empty-path, empty-query reference. -/
def resolveReference (u r : URL) : URL :=
  if r.scheme ≠ "" ∨ r.host ≠ "" then
    { r with
        scheme := if r.scheme = "" then u.scheme else r.scheme
        path := resolvePathList r.path [] }
  else
    { scheme := if r.scheme = "" then u.scheme else r.scheme
      host := u.host
      path := resolvePathList u.path r.path
      rawQuery := if r.path = [] ∧ r.rawQuery = "" then u.rawQuery else r.rawQuery
      fragment :=
        if r.path = [] ∧ r.rawQuery = "" ∧ r.fragment = "" then u.fragment else r.fragment }

/-- `strings.TrimPrefix(path, "/")` (client.go line 214): drop one leading
slash if present. -/
def trimLeadingSlash (p : List Char) : List Char :=
  match p with
  | '/' :: rest => rest
  | other => other

/-- client.go lines 209-211: coerce the base path to end with `"/"`
(`strings.HasSuffix` check plus append). -/
def coerceSlash (p : List Char) : List Char :=
  if p.getLast? = some '/' then p else p ++ ['/']

/-- `%q` of a string as used in the invalid-base-url message (escaping of
special characters elided). -/
def goQuote (s : String) : String := "\"" ++ s ++ "\""

/-- client.go `NewRequest` restricted to its URL computation.  The endpoint
and base URL arrive as `url.Parse` results (`none` models a parse error);
`baseRaw` is the raw base string, used only in the error message.  The
resulting request URL stands in for the built `*http.Request`. -/
def newRequest (endpoint : Option URL) (baseRaw : String) (base : Option URL) :
    Except GoError URL :=
  match endpoint with
  | none => .error (.msg "endpoint parse error")
  | some e =>
    if e.isAbs then .ok e
    else
      match base with
      | none => .error (.msg ("invalid base url: " ++ goQuote baseRaw))
      | some b =>
        if b.scheme = "" ∨ b.host = "" then
          .error (.msg ("invalid base url: " ++ goQuote baseRaw))
        else
          .ok (resolveReference
            { b with path := coerceSlash b.path }
            { scheme := ""
              host := ""
              path := trimLeadingSlash e.path
              rawQuery := e.rawQuery
              fragment := e.fragment })

/-- Join segments back with `'/'` separators (inverse of `splitSlash`). -/
def unsplit : List (List Char) → List Char
  | [] => []
  | [s] => s
  | s :: ss => s ++ '/' :: unsplit ss

/-- What the non-dot branch of the loop appends for each segment. -/
def joinSlash : List (List Char) → List Char
  | [] => []
  | s :: ss => '/' :: s ++ joinSlash ss

/-- No segment of the slash-split of `l` is `"."` or `".."`: the dot-segment
pass of `resolvePath` has nothing to rewrite in `l`. -/
@[reducible] def NoDot (l : List Char) : Prop :=
  ∀ s ∈ splitSlash l, s ≠ ['.'] ∧ s ≠ ['.', '.']

/-- transport.go `ExpectStatus`: `nil` when the response status is one of the
allowed ones, otherwise the unexpected-status error carrying the code and
the full (untruncated) body, as `fmt.Errorf("unexpected status %d: %s", ...)`
formats it.  `slices.Contains` is list membership. -/
def expectStatus (statusCode : Nat) (body : String) (allowedStatus : List Nat) :
    Option GoError :=
  if statusCode ∈ allowedStatus then none
  else some (.msg ("unexpected status " ++ toString statusCode ++ ": " ++ body))

/-- The observable outcome of `GetJSON`/`DoJSON`: the returned response
(represented by its status code; `none` = no response), the returned body,
the returned error, and what was unmarshalled into `out`
(`none` = `out` left untouched). -/
structure JsonCallResult (α : Type) where
  status : Option Nat
  body : Option String
  err : Option GoError
  out : Option α
deriving DecidableEq, Repr

/-- The tail of `GetJSON`/`DoJSON` after status validation: unmarshal the body
into `out` when `out` is non-nil (`wantOut`), with `decode` modelling
`json.Unmarshal` at the output type `α`. -/
def decodeInto {α : Type} (status : Nat) (body : String)
    (decode : String → Except GoError α) (wantOut : Bool) : JsonCallResult α :=
  if wantOut then
    match decode body with
    | .error e => ⟨some status, some body, some e, none⟩
    | .ok a => ⟨some status, some body, none, some a⟩
  else ⟨some status, some body, none, none⟩

/-- transport.go `GetJSON`: issue the GET (`resp` is its outcome, reduced to
the status code), read the body (`bodyRes`), validate the status against
`allowedStatus` when that list is non-empty, then unmarshal. -/
def getJSON {α : Type} (resp : Except GoError Nat) (bodyRes : Except GoError String)
    (decode : String → Except GoError α) (wantOut : Bool) (allowedStatus : List Nat) :
    JsonCallResult α :=
  match resp with
  | .error e => ⟨none, none, some e, none⟩
  | .ok status =>
    match bodyRes with
    | .error e => ⟨some status, none, some e, none⟩
    | .ok body =>
      if 0 < allowedStatus.length then
        match expectStatus status body allowedStatus with
        | some e => ⟨some status, some body, some e, none⟩
        | none => decodeInto status body decode wantOut
      else decodeInto status body decode wantOut

/-- transport.go `DoJSON`: marshal the input when non-nil (`marshalIn`;
`none` = nil input, `some (.error _)` = `json.Marshal` failure), then
proceed exactly as `GetJSON` does on the response. -/
def doJSON {α : Type} (marshalIn : Option (Except GoError String))
    (resp : Except GoError Nat) (bodyRes : Except GoError String)
    (decode : String → Except GoError α) (wantOut : Bool) (allowedStatus : List Nat) :
    JsonCallResult α :=
  match marshalIn with
  | some (.error e) => ⟨none, none, some e, none⟩
  | _ => getJSON resp bodyRes decode wantOut allowedStatus

/-- One HTTP poll response as `PollProvisioning` observes it: the status
code, the `Location` header (`res.Header.Get` returns `""` when the header
is absent), and the body read by `c.Body`. -/
structure Response where
  statusCode : Nat
  location : String
  body : String
deriving DecidableEq, Repr

/-- What one iteration of the `PollProvisioning` switch decides: return a
location, return an error, or fall through to the cancellable sleep. -/
inductive StepAction where
  | success (location : String) : StepAction
  | failure (e : GoError) : StepAction
  | sleepRetry : StepAction
deriving DecidableEq, Repr

/-- The `switch res.StatusCode` body of `PollProvisioning` (client.go, lines
306-347) for one response.  `unmarshal` models `json.Unmarshal` into
`map[string]any` (`Obj` abstracts the decoded object, the error its
message), `check` is the caller's completion predicate and `identifier`
its second argument.  Status constants: 303 SeeOther, 500
InternalServerError, 202 Accepted, 200 OK. -/
def pollStep {Obj : Type} (unmarshal : String → Except String Obj)
    (check : Obj → String → String × Bool) (identifier : String)
    (res : Response) : StepAction :=
  if res.statusCode = 303 then
    if res.location = "" then .failure (.msg "polling returned no location")
    else .success res.location
  else if res.statusCode = 500 then
    .failure (.msg ("provisioning failed: " ++ res.body))
  else if res.statusCode = 202 then
    if res.location ≠ "" then .success res.location else .sleepRetry
  else if res.statusCode = 200 then
    if res.location ≠ "" then .success res.location
    else
      match unmarshal res.body with
      | .error e => .failure (.wrapped "could not umnarshal ok json: " (.msg e))
      | .ok data =>
        match check data identifier with
        | (url, true) => .success url
        | (_, false) => .sleepRetry
  else .failure (.msg ("unexpected status while polling: " ++ toString res.statusCode))

/-- The environment of one `PollProvisioning` call: the poll interval and the
deadline (`time.Now().Add(timeout)`, with the start instant at 0), the
instant at which the caller's context is cancelled (`none` = never), the
outcome of the k-th poll round trip (`.error` = `Do`/`Body` failure), the
body decoder and the caller's completion predicate. -/
structure PollEnv (Obj : Type) where
  pollInterval : Nat
  deadline : Nat
  cancelAt : Option Nat
  responses : Nat → Except GoError Response
  unmarshal : String → Except String Obj
  check : Obj → String → String × Bool
  identifier : String

/-- `ctx.Err() != nil` at instant `now`: the context was cancelled at or
before `now`. -/
def ctxErrAt (cancelAt : Option Nat) (now : Nat) : Bool :=
  match cancelAt with
  | none => false
  | some t => decide (t ≤ now)

/-- Whether `ctx.Done()` fires strictly before `time.After(PollInterval)` in
the `select` of the sleep that starts at `now`. -/
def ctxDoneDuringSleep (cancelAt : Option Nat) (now interval : Nat) : Bool :=
  match cancelAt with
  | none => false
  | some t => decide (t < now + interval)

/-- The loop of `PollProvisioning` (client.go, lines 287-349) in discrete
time: on each entry check cancellation (`ctx.Err()`), then the wall-clock
deadline (`time.Now().After(deadline)`); then poll, act on the switch
(`pollStep`), and on fall-through sleep one cancellable interval.  The
round trip is instantaneous in this time model; only the sleep advances
the clock.  `fuel` bounds the recursion depth (a modelling artefact;
`none` = fuel exhausted), `now` is the current instant and `k` counts the
polls issued so far. -/
def pollLoop {Obj : Type} (env : PollEnv Obj) :
    Nat → Nat → Nat → Option (Except GoError String)
  | 0, now, _ =>
    if ctxErrAt env.cancelAt now then some (.error .ctxCanceled)
    else if env.deadline < now then
      some (.error (.msg "timed out while provisioning"))
    else none
  | fuel + 1, now, k =>
    if ctxErrAt env.cancelAt now then some (.error .ctxCanceled)
    else if env.deadline < now then
      some (.error (.msg "timed out while provisioning"))
    else
      match env.responses k with
      | .error e => some (.error e)
      | .ok res =>
        match pollStep env.unmarshal env.check env.identifier res with
        | .success loc => some (.ok loc)
        | .failure e => some (.error e)
        | .sleepRetry =>
          if ctxDoneDuringSleep env.cancelAt now env.pollInterval then
            some (.error .ctxCanceled)
          else pollLoop env fuel (now + env.pollInterval) (k + 1)

/-- A concrete poll environment: a server that always answers 202 with no
Location, a 20-unit deadline and a 5-unit interval, never cancelled. -/
def envPending : PollEnv Unit :=
  { pollInterval := 5
    deadline := 20
    cancelAt := none
    responses := fun _ => .ok ⟨202, "", ""⟩
    unmarshal := fun _ => .ok ()
    check := fun _ _ => ("", false)
    identifier := "" }

/-- C3: the expiry decision returns true iff the lifetime is strictly positive,
the token has been used, and the elapsed time since last use is at least
max(lifetime − 10s, 0); a never-used token is never expired; the two concrete
examples of the spec behave as stated. -/
theorem C3_tokenExpired_policy :
    (∀ (now expiresIn : Int) (lastUsedAt : Option Int),
      tokenExpired now expiresIn lastUsedAt = true ↔
        (0 < expiresIn ∧ ∃ t, lastUsedAt = some t ∧
          max (expiresIn - 10 * second) 0 ≤ now - t)) ∧
    (∀ (now expiresIn : Int), tokenExpired now expiresIn none = false) ∧
    tokenExpired (25 * second) (30 * second) (some 0) = true ∧
    tokenExpired 0 (30 * second) (some 0) = false := by
  refine ⟨?_, ?_, by decide, by decide⟩
  · intro now expiresIn lastUsedAt
    cases lastUsedAt with
    | none => simp [tokenExpired]
    | some t =>
      simp only [tokenExpired, Option.getD_some, Option.some_ne_none, or_false,
        second, ge_iff_le]
      constructor
      · intro h
        split at h
        · simp at h
        · rename_i hpos
          rw [decide_eq_true_eq] at h
          split at h <;> exact ⟨by omega, t, rfl, by omega⟩
      · rintro ⟨hpos, t', ht', hle⟩
        obtain rfl : t = t' := by injection ht'
        rw [if_neg (by omega), decide_eq_true_eq]
        split <;> omega
  · intro now expiresIn
    simp [tokenExpired]

theorem tokenExpired_none (now expiresIn : Int) :
    tokenExpired now expiresIn none = false := by
  simp [tokenExpired]

theorem fastCheck_empty {g : GState} (now : Int) (hc : g.hasCreds = true)
    (ht : g.token = "") : fastCheck now g = none := by
  simp [fastCheck, ht, hc]

theorem fastCheck_fresh {g : GState} {T : String} (now : Int)
    (ht : g.token = T) (hT : T ≠ "") (hl : g.lastUsedAt = none) :
    fastCheck now g = some T := by
  simp [fastCheck, ht, hT, hl, tokenExpired_none]

theorem ensureInv_step {T : String} {E : Int} {n : Nat} {s s' : Sys}
    (hT : T ≠ "") (hinv : EnsureInv T n s)
    (hstep : SysStep (.ok (T, E)) s s') : EnsureInv T n s' := by
  obtain ⟨hc, hlen, hph⟩ := hinv
  cases hstep with
  | fastHit now i tok hi hfc =>
    refine ⟨hc, by simpa using hlen, ?_⟩
    rcases hph with ⟨ht, hs, hth⟩ | ⟨ht, hl, hs, hth⟩
    · rw [fastCheck_empty now hc ht] at hfc
      exact absurd hfc (by simp)
    · rw [fastCheck_fresh now ht hT hl] at hfc
      obtain rfl : T = tok := by injection hfc
      refine Or.inr ⟨ht, hl, hs, ?_⟩
      intro t htmem
      rcases List.mem_or_eq_of_mem_set htmem with h | rfl
      · exact hth t h
      · exact Or.inr (Or.inr rfl)
  | fastMiss now i hi hfc =>
    refine ⟨hc, by simpa using hlen, ?_⟩
    rcases hph with ⟨ht, hs, hth⟩ | ⟨ht, hl, hs, hth⟩
    · refine Or.inl ⟨ht, hs, ?_⟩
      intro t htmem
      rcases List.mem_or_eq_of_mem_set htmem with h | rfl
      · exact hth t h
      · exact Or.inr rfl
    · refine Or.inr ⟨ht, hl, hs, ?_⟩
      intro t htmem
      rcases List.mem_or_eq_of_mem_set htmem with h | rfl
      · exact hth t h
      · exact Or.inr (Or.inl rfl)
  | locked now i hi =>
    rcases hph with ⟨ht, hs, hth⟩ | ⟨ht, hl, hs, hth⟩
    · have hfc : fastCheck now s.g = none := fastCheck_empty now hc ht
      have hlr : lockedRefresh now (.ok (T, E)) s.g =
          ({ s.g with
              token := T
              expiresIn := E * second
              lastUsedAt := none
              signIns := s.g.signIns + 1 }, T, none) := by
        simp only [lockedRefresh, hfc]
      refine ⟨by simp [hlr, hc], by simp [hlr, hlen], ?_⟩
      refine Or.inr ⟨by simp [hlr], by simp [hlr], by simp [hlr, hs], ?_⟩
      intro t htmem
      simp only [hlr] at htmem
      rcases List.mem_or_eq_of_mem_set htmem with h | rfl
      · rcases hth t h with h1 | h1
        · exact Or.inl h1
        · exact Or.inr (Or.inl h1)
      · exact Or.inr (Or.inr rfl)
    · have hfc : fastCheck now s.g = some T := fastCheck_fresh now ht hT hl
      have hlr : lockedRefresh now (.ok (T, E)) s.g = (s.g, T, none) := by
        simp only [lockedRefresh, hfc]
      refine ⟨by simp [hlr, hc], by simp [hlr, hlen], ?_⟩
      refine Or.inr ⟨by simp [hlr, ht], by simp [hlr, hl], by simp [hlr, hs], ?_⟩
      intro t htmem
      simp only [hlr] at htmem
      rcases List.mem_or_eq_of_mem_set htmem with h | rfl
      · exact hth t h
      · exact Or.inr (Or.inr rfl)

theorem ensureInv_reach {T : String} {E expiresIn0 : Int} {l0 : Option Int}
    {n : Nat} {s : Sys} (hT : T ≠ "")
    (hreach : Reach (.ok (T, E)) (sysInit n expiresIn0 l0) s) :
    EnsureInv T n s := by
  induction hreach with
  | refl =>
    refine ⟨rfl, by simp [sysInit], Or.inl ⟨rfl, rfl, ?_⟩⟩
    intro t htmem
    exact Or.inl (List.eq_of_mem_replicate htmem)
  | tail _ hstep ih => exact ensureInv_step hT ih hstep

/-- C2: starting from a client with no token and valid credentials, for any
interleaving of N ≥ 1 concurrent `ensureToken` callers (the sign-in
exchange returning the non-empty token `T`), once every caller has
finished, exactly one sign-in exchange has occurred and every caller
observed the same token `T` with no error.  Mutual exclusion of the
in-flight sign-in is modelled by the locked section being one atomic step
of `SysStep`. -/
theorem C2_single_sign_in (T : String) (E expiresIn0 : Int) (l0 : Option Int)
    (n : Nat) (s : Sys) (hT : T ≠ "") (hn : 1 ≤ n)
    (hreach : Reach (.ok (T, E)) (sysInit n expiresIn0 l0) s)
    (hdone : ∀ t ∈ s.th, ∃ tok err, t = TState.done tok err) :
    s.g.signIns = 1 ∧ ∀ t ∈ s.th, t = TState.done T none := by
  obtain ⟨hc, hlen, hph⟩ := ensureInv_reach hT hreach
  rcases hph with ⟨ht, hs, hth⟩ | ⟨ht, hl, hs, hth⟩
  · exfalso
    have hne : s.th ≠ [] := by
      intro h
      rw [h] at hlen
      simp at hlen
      omega
    obtain ⟨t, htmem⟩ := List.exists_mem_of_ne_nil s.th hne
    obtain ⟨tok, err, rfl⟩ := hdone t htmem
    rcases hth _ htmem with h | h <;> simp at h
  · refine ⟨hs, ?_⟩
    intro t htmem
    obtain ⟨tok, err, rfl⟩ := hdone t htmem
    rcases hth _ htmem with h | h | h
    · simp at h
    · simp at h
    · exact h

/-- Witness for C2: two explicit scheduler steps drive one caller through
`ensureToken` from the fresh state; the conclusion is obtained by applying
`C2_single_sign_in` to that concrete run. -/
theorem C2_single_sign_in_witness :
    (Sys.mk ⟨"tok", 3600 * second, none, true, 1⟩ [TState.done "tok" none]).g.signIns = 1 ∧
    ∀ t ∈ (Sys.mk ⟨"tok", 3600 * second, none, true, 1⟩ [TState.done "tok" none]).th,
      t = TState.done "tok" none := by
  have step1 : SysStep (.ok ("tok", 3600)) (sysInit 1 0 none)
      ⟨⟨"", 0, none, true, 0⟩, [TState.needLock]⟩ :=
    SysStep.fastMiss (sysInit 1 0 none) 0 0 rfl rfl
  have step2 : SysStep (.ok ("tok", 3600)) ⟨⟨"", 0, none, true, 0⟩, [TState.needLock]⟩
      (Sys.mk ⟨"tok", 3600 * second, none, true, 1⟩ [TState.done "tok" none]) :=
    SysStep.locked ⟨⟨"", 0, none, true, 0⟩, [TState.needLock]⟩ 0 0 rfl
  have hreach : Reach (.ok ("tok", 3600)) (sysInit 1 0 none)
      (Sys.mk ⟨"tok", 3600 * second, none, true, 1⟩ [TState.done "tok" none]) :=
    Relation.ReflTransGen.tail (Relation.ReflTransGen.single step1) step2
  refine C2_single_sign_in "tok" 3600 0 none 1 _ (by decide) (by decide) hreach ?_
  intro t htmem
  rw [List.mem_singleton] at htmem
  exact ⟨"tok", none, htmem⟩

/-- C9: whenever the slow path of `ensureToken` actually performs the sign-in
exchange (credentials configured, token missing or expired) and that
exchange fails, the call returns the empty token together with the error,
and the guarded state (token, lifetime, last-used timestamp) is unchanged. -/
theorem C9_sign_in_failure_leaves_state (now : Int) (e : GoError) (g : GState)
    (hc : g.hasCreds = true)
    (hstale : g.token = "" ∨ tokenExpired now g.expiresIn g.lastUsedAt = true) :
    ensureTokenRun now (.error e) g = (g, "", some e) := by
  have hfc : fastCheck now g = none := by
    rcases hstale with h | h
    · exact fastCheck_empty now hc h
    · simp [fastCheck, h, hc]
  simp only [ensureTokenRun, hfc, lockedRefresh]

/-- Witness for C9: a concrete stale client and failing sign-in. -/
theorem C9_sign_in_failure_leaves_state_witness :
    ensureTokenRun 0 (.error (.msg "auth failed: status 401: nope"))
      ⟨"", 0, none, true, 0⟩ =
      (⟨"", 0, none, true, 0⟩, "", some (.msg "auth failed: status 401: nope")) :=
  C9_sign_in_failure_leaves_state 0 (.msg "auth failed: status 401: nope")
    ⟨"", 0, none, true, 0⟩ rfl (Or.inl rfl)

theorem splitSlash_ne_nil (l : List Char) : splitSlash l ≠ [] := by
  cases l with
  | nil => simp [splitSlash]
  | cons c rest =>
    rw [splitSlash]
    split
    · simp
    · cases h : splitSlash rest <;> simp

theorem joinSlash_splitSlash (l : List Char) : joinSlash (splitSlash l) = '/' :: l := by
  induction l with
  | nil => rfl
  | cons c rest ih =>
    rw [splitSlash]
    split
    · rename_i hc
      subst hc
      rw [joinSlash, ih]
      rfl
    · cases h : splitSlash rest with
      | nil => exact absurd h (splitSlash_ne_nil rest)
      | cons s ss =>
        rw [h] at ih
        rw [joinSlash] at ih ⊢
        have h2 : s ++ joinSlash ss = rest := by simpa using ih
        simp [← h2]

theorem foldl_dotStep_noDot (segs : List (List Char)) (acc : List Char)
    (h : ∀ s ∈ segs, s ≠ ['.'] ∧ s ≠ ['.', '.']) :
    segs.foldl dotStep (acc, false) = (acc ++ joinSlash segs, false) := by
  induction segs generalizing acc with
  | nil => simp [joinSlash]
  | cons s ss ih =>
    have hs := h s (List.mem_cons_self s ss)
    rw [List.foldl_cons]
    have hstep : dotStep (acc, false) s = (acc ++ '/' :: s, false) := by
      simp [dotStep, hs.1, hs.2]
    rw [hstep, ih (acc ++ '/' :: s) (fun t ht => h t (List.mem_cons_of_mem s ht))]
    simp [joinSlash]

theorem getLastD_mem {α : Type} (l : List α) (d : α) (h : l ≠ []) :
    l.getLastD d ∈ l := by
  induction l generalizing d with
  | nil => exact absurd rfl h
  | cons a as ih =>
    cases as with
    | nil => simp [List.getLastD]
    | cons b bs =>
      rw [List.getLastD_cons]
      exact List.mem_cons_of_mem a (ih a (by simp))

theorem removeDotSegments_id (t : List Char) (h : NoDot ('/' :: t)) :
    removeDotSegments ('/' :: t) = '/' :: t := by
  have hsplit : splitSlash ('/' :: t) = [] :: splitSlash t := by
    rw [splitSlash, if_pos rfl]
  have hfold : (splitSlash ('/' :: t)).foldl dotStep ([], true) =
      (joinSlash (splitSlash t), false) := by
    rw [hsplit, List.foldl_cons]
    have h1 : dotStep ([], true) [] = ([], false) := by simp [dotStep]
    rw [h1, foldl_dotStep_noDot _ _ ?seg]
    · simp
    case seg =>
      intro s hs
      exact h s (by rw [hsplit]; exact List.mem_cons_of_mem _ hs)
  have hlastmem : (splitSlash ('/' :: t)).getLastD [] ∈ [] :: splitSlash t := by
    rw [← hsplit]
    exact getLastD_mem _ _ (splitSlash_ne_nil _)
  have hlast : ¬((splitSlash ('/' :: t)).getLastD [] = ['.'] ∨
      (splitSlash ('/' :: t)).getLastD [] = ['.', '.']) := by
    rcases List.mem_cons.1 hlastmem with h1 | h1
    · rw [h1]; simp
    · have := h _ (by rw [hsplit]; exact List.mem_cons_of_mem _ h1)
      push_neg
      exact this
  simp only [removeDotSegments, hfold, if_neg hlast, joinSlash_splitSlash]
  simp

theorem eq_append_of_getLastQ {α : Type} (l : List α) (a : α)
    (h : l.getLast? = some a) : ∃ q, l = q ++ [a] := by
  cases hr : l.reverse with
  | nil =>
    have : l = [] := by simpa using congrArg List.reverse hr
    rw [this] at h
    simp at h
  | cons b bs =>
    have hl : l = bs.reverse ++ [b] := by
      have := congrArg List.reverse hr
      rw [List.reverse_reverse] at this
      rw [this, List.reverse_cons]
    obtain rfl : b = a := by
      rw [hl, List.getLast?_concat] at h
      exact Option.some.inj h
    exact ⟨bs.reverse, hl⟩

theorem splitSlash_append (a b : List Char) :
    splitSlash (a ++ '/' :: b) = splitSlash a ++ splitSlash b := by
  induction a with
  | nil => simp [splitSlash]
  | cons c a ih =>
    by_cases hc : c = '/'
    · subst hc
      rw [List.cons_append, splitSlash, if_pos rfl, ih, splitSlash, if_pos rfl]
      rfl
    · rw [List.cons_append, splitSlash, if_neg hc, ih, splitSlash, if_neg hc]
      cases h : splitSlash a with
      | nil => exact absurd h (splitSlash_ne_nil a)
      | cons s ss => simp

theorem noDot_coerce_append {p t : List Char} (hp : NoDot p) (ht : NoDot t) :
    NoDot (coerceSlash p ++ t) := by
  rw [coerceSlash]
  split
  · rename_i hlast
    obtain ⟨q, rfl⟩ := eq_append_of_getLastQ p '/' hlast
    intro s hs
    rw [List.append_assoc, List.singleton_append, splitSlash_append] at hs
    rcases List.mem_append.1 hs with h1 | h1
    · exact hp s (by
        rw [show q ++ ['/'] = q ++ '/' :: [] from rfl, splitSlash_append]
        exact List.mem_append.2 (Or.inl h1))
    · exact ht s h1
  · intro s hs
    rw [List.append_assoc, List.singleton_append, splitSlash_append] at hs
    rcases List.mem_append.1 hs with h1 | h1
    · exact hp s h1
    · exact ht s h1

theorem resolvePathList_eq_append (base t : List Char)
    (hh : base.head? = some '/')
    (hl : base.getLast? = some '/')
    (ht : t.head? ≠ some '/')
    (hnd : NoDot (base ++ t)) :
    resolvePathList base t = base ++ t := by
  obtain ⟨t0, rfl⟩ : ∃ t0, base = '/' :: t0 := by
    cases base with
    | nil => simp at hh
    | cons c cs =>
      refine ⟨cs, ?_⟩
      injection hh with hh
      rw [hh]
  have hfull : resolveFull ('/' :: t0) t = '/' :: t0 ++ t := by
    cases t with
    | nil => rw [resolveFull, if_pos rfl, List.append_nil]
    | cons c cs =>
      obtain ⟨q, hq⟩ := eq_append_of_getLastQ _ '/' hl
      have hdrop : ((('/' :: t0).reverse.dropWhile (· ≠ '/')).reverse) = '/' :: t0 := by
        rw [hq, List.reverse_append]
        simp [List.dropWhile]
      rw [resolveFull, if_neg (by simp), if_pos ht, hdrop]
  rw [resolvePathList, hfull, if_neg (by simp)]
  exact removeDotSegments_id (t0 ++ t) hnd

/-- C6 (amended): for a base URL with scheme and host whose path is empty or
rooted and free of dot segments, and a relative endpoint whose
slash-stripped path is free of dot segments, does not itself start with a
slash, and is not empty with an empty query, `NewRequest` resolves to the
base scheme and host, the path `coerceSlash (path B) ++ trimLeadingSlash
(path E)`, and the endpoint's own query and fragment. -/
theorem C6_relative_resolution (b e : URL) (raw : String)
    (hs : b.scheme ≠ "") (hh : b.host ≠ "")
    (habs : e.scheme = "")
    (hbp : b.path = [] ∨ b.path.head? = some '/')
    (hnb : NoDot b.path)
    (hnt : NoDot (trimLeadingSlash e.path))
    (hsl : (trimLeadingSlash e.path).head? ≠ some '/')
    (hne : ¬(trimLeadingSlash e.path = [] ∧ e.rawQuery = "")) :
    newRequest (some e) raw (some b) =
      .ok { scheme := b.scheme
            host := b.host
            path := coerceSlash b.path ++ trimLeadingSlash e.path
            rawQuery := e.rawQuery
            fragment := e.fragment } := by
  have habs' : e.isAbs = false := by simp [URL.isAbs, habs]
  have hchead : (coerceSlash b.path).head? = some '/' := by
    rw [coerceSlash]
    rcases hbp with h | h
    · rw [h]
      simp
    · split
      · exact h
      · cases hp : b.path with
        | nil => rw [hp] at h; simp at h
        | cons c cs =>
          rw [hp] at h
          simp at h
          simp [h]
  have hclast : (coerceSlash b.path).getLast? = some '/' := by
    rw [coerceSlash]
    split
    · rename_i h; exact h
    · exact List.getLast?_concat _
  have hpath : resolvePathList (coerceSlash b.path) (trimLeadingSlash e.path) =
      coerceSlash b.path ++ trimLeadingSlash e.path :=
    resolvePathList_eq_append _ _ hchead hclast hsl (noDot_coerce_append hnb hnt)
  rw [newRequest]
  rw [if_neg (by rw [habs']; exact fun h => Bool.false_ne_true h)]
  rw [if_neg (by push_neg; exact ⟨hs, hh⟩)]
  rw [resolveReference]
  rw [if_neg (by push_neg; exact ⟨rfl, rfl⟩)]
  have hfrag : ¬(trimLeadingSlash e.path = [] ∧ e.rawQuery = "" ∧ e.fragment = "") :=
    fun hcon => hne ⟨hcon.1, hcon.2.1⟩
  simp [hpath, hne, hfrag]

/-- Counterexample to C6 as stated: a relative endpoint whose path is the dot
segment `".."` resolves through net/url's dot-segment removal to `"/"`,
not to the concatenation `path(B) + "/" + trim_leading_slash(E)` that the
claim promises for every relative endpoint. -/
theorem C6_counterexample :
    newRequest (some ⟨"", "", ['.', '.'], "", ""⟩) "https://h/api"
        (some ⟨"https", "h", ['/', 'a', 'p', 'i'], "", ""⟩) =
      .ok ⟨"https", "h", ['/'], "", ""⟩ ∧
    (['/'] : List Char) ≠
      coerceSlash ['/', 'a', 'p', 'i'] ++ trimLeadingSlash ['.', '.'] := by
  exact ⟨rfl, by decide⟩

/-- Witness for C6: a concrete well-behaved base and endpoint. -/
theorem C6_relative_resolution_witness :
    newRequest (some ⟨"", "", ['/', 's', '1'], "a=1", "frag"⟩) "https://api.x"
        (some ⟨"https", "api.x", ['/', 'v', '1'], "", ""⟩) =
      .ok ⟨"https", "api.x", ['/', 'v', '1', '/', 's', '1'], "a=1", "frag"⟩ := by
  have h := C6_relative_resolution
    ⟨"https", "api.x", ['/', 'v', '1'], "", ""⟩
    ⟨"", "", ['/', 's', '1'], "a=1", "frag"⟩ "https://api.x"
    (by decide) (by decide) rfl (Or.inr rfl) (by decide) (by decide)
    (by decide) (by decide)
  exact h.trans rfl

/-- C7 (amended): for every endpoint that parses and is not absolute, if the
base URL does not parse to a value with both a scheme and a host,
`NewRequest` fails with the invalid-base-url error. -/
theorem C7_invalid_base (e : URL) (raw : String) (base : Option URL)
    (habs : e.scheme = "")
    (hbad : base = none ∨ ∃ b, base = some b ∧ (b.scheme = "" ∨ b.host = "")) :
    newRequest (some e) raw base =
      .error (.msg ("invalid base url: " ++ goQuote raw)) := by
  have habs' : e.isAbs = false := by simp [URL.isAbs, habs]
  rcases hbad with rfl | ⟨b, rfl, hb⟩
  · rw [newRequest, if_neg (by rw [habs']; exact Bool.false_ne_true)]
  · rw [newRequest, if_neg (by rw [habs']; exact Bool.false_ne_true), if_pos hb]

/-- Counterexample to C7 as stated ("for every endpoint"): with an absolute
endpoint the base URL is never inspected, so an unparsable base produces no
invalid-base-url error — the absolute endpoint is returned as-is. -/
theorem C7_counterexample :
    newRequest (some ⟨"https", "x", ['/', 'y'], "", ""⟩) "::notaurl" none =
      .ok ⟨"https", "x", ['/', 'y'], "", ""⟩ := rfl

/-- Witness for C7: a concrete relative endpoint against a host-less base. -/
theorem C7_invalid_base_witness :
    newRequest (some ⟨"", "", ['/', 'y'], "", ""⟩) "nohost"
        (some ⟨"", "nohost", [], "", ""⟩) =
      .error (.msg ("invalid base url: " ++ goQuote "nohost")) :=
  C7_invalid_base ⟨"", "", ['/', 'y'], "", ""⟩ "nohost"
    (some ⟨"", "nohost", [], "", ""⟩) rfl
    (Or.inr ⟨⟨"", "nohost", [], "", ""⟩, rfl, Or.inl rfl⟩)

/-- C8: with a non-empty allowed-status list and a response status not in it,
`GetJSON` and `DoJSON` (the latter with nil or successfully marshalled
input) return the unexpected-status error carrying the status code and the
literal, untruncated response body, and do not unmarshal into `out`; with
an empty allowed list no status validation occurs — the error and `out`
components do not depend on the status code. -/
theorem C8_status_validation (α : Type) (decode : String → Except GoError α)
    (wantOut : Bool) (status : Nat) (body : String) (allowedStatus : List Nat)
    (mi : Option String)
    (hne : allowedStatus ≠ []) (hnotin : status ∉ allowedStatus) :
    getJSON (.ok status) (.ok body) decode wantOut allowedStatus =
      ⟨some status, some body,
        some (.msg ("unexpected status " ++ toString status ++ ": " ++ body)), none⟩ ∧
    doJSON (mi.map Except.ok) (.ok status) (.ok body) decode wantOut allowedStatus =
      ⟨some status, some body,
        some (.msg ("unexpected status " ++ toString status ++ ": " ++ body)), none⟩ ∧
    ∀ status2 : Nat,
      (getJSON (.ok status) (.ok body) decode wantOut []).err =
        (getJSON (.ok status2) (.ok body) decode wantOut []).err ∧
      (getJSON (.ok status) (.ok body) decode wantOut []).out =
        (getJSON (.ok status2) (.ok body) decode wantOut []).out := by
  have hlen : 0 < allowedStatus.length := List.length_pos.mpr hne
  have hes : expectStatus status body allowedStatus =
      some (.msg ("unexpected status " ++ toString status ++ ": " ++ body)) := by
    rw [expectStatus, if_neg hnotin]
  have hget : getJSON (.ok status) (.ok body) decode wantOut allowedStatus =
      ⟨some status, some body,
        some (.msg ("unexpected status " ++ toString status ++ ": " ++ body)), none⟩ := by
    simp only [getJSON, if_pos hlen, hes]
  refine ⟨hget, ?_, ?_⟩
  · cases mi with
    | none => exact hget
    | some s => exact hget
  · have hg : ∀ st : Nat, getJSON (.ok st) (.ok body) decode wantOut [] =
        decodeInto st body decode wantOut := by
      intro st
      simp [getJSON]
    intro status2
    rw [hg status, hg status2]
    cases wantOut with
    | false => exact ⟨rfl, rfl⟩
    | true =>
      cases hd : decode body with
      | error e => constructor <;> simp [decodeInto, hd]
      | ok a => constructor <;> simp [decodeInto, hd]

/-- Witness for C8: a 404 against an allowed list of [200]. -/
theorem C8_status_validation_witness :
    getJSON (.ok 404) (.ok "oops") (fun _ => (.ok () : Except GoError Unit)) true [200] =
      ⟨some 404, some "oops",
        some (.msg ("unexpected status " ++ toString 404 ++ ": " ++ "oops")), none⟩ :=
  (C8_status_validation Unit (fun _ => .ok ()) true 404 "oops" [200] none
    (by decide) (by decide)).1

/-- C1: for one poll iteration, the action of the `switch` is exactly the
spec's status/Location table: 303 returns the location or fails without
one; 500 fails with the body regardless of Location; 202 returns a present
location and otherwise sleeps; 200 returns a present location and
otherwise decodes the body and follows the completion predicate; any other
status fails with the unexpected-status message. -/
theorem C1_poll_table (Obj : Type) (unmarshal : String → Except String Obj)
    (check : Obj → String → String × Bool) (identifier : String) (res : Response) :
    (res.statusCode = 303 → res.location ≠ "" →
      pollStep unmarshal check identifier res = .success res.location) ∧
    (res.statusCode = 303 → res.location = "" →
      pollStep unmarshal check identifier res =
        .failure (.msg "polling returned no location")) ∧
    (res.statusCode = 500 →
      pollStep unmarshal check identifier res =
        .failure (.msg ("provisioning failed: " ++ res.body))) ∧
    (res.statusCode = 202 → res.location ≠ "" →
      pollStep unmarshal check identifier res = .success res.location) ∧
    (res.statusCode = 202 → res.location = "" →
      pollStep unmarshal check identifier res = .sleepRetry) ∧
    (res.statusCode = 200 → res.location ≠ "" →
      pollStep unmarshal check identifier res = .success res.location) ∧
    (res.statusCode = 200 → res.location = "" → ∀ obj, unmarshal res.body = .ok obj →
      pollStep unmarshal check identifier res =
        (if (check obj identifier).2 then .success (check obj identifier).1
         else .sleepRetry)) ∧
    (res.statusCode ≠ 303 → res.statusCode ≠ 500 → res.statusCode ≠ 202 →
      res.statusCode ≠ 200 →
      pollStep unmarshal check identifier res =
        .failure (.msg ("unexpected status while polling: " ++
          toString res.statusCode))) := by
  refine ⟨?_, ?_, ?_, ?_, ?_, ?_, ?_, ?_⟩
  · intro h1 h2
    simp [pollStep, h1, h2]
  · intro h1 h2
    simp [pollStep, h1, h2]
  · intro h1
    simp [pollStep, h1]
  · intro h1 h2
    simp [pollStep, h1, h2]
  · intro h1 h2
    simp [pollStep, h1, h2]
  · intro h1 h2
    simp [pollStep, h1, h2]
  · intro h1 h2 obj hobj
    cases hc : check obj identifier with
    | mk url d => cases d <;> simp [pollStep, h1, h2, hobj, hc]
  · intro h1 h2 h3 h4
    simp [pollStep, h1, h2, h3, h4]

/-- Witness for C1: the 303-with-Location row at a concrete response. -/
theorem C1_poll_table_witness :
    pollStep (fun _ => (.ok () : Except String Unit)) (fun _ _ => ("/done", true)) "id"
      ⟨303, "https://x/y", ""⟩ = .success "https://x/y" :=
  (C1_poll_table Unit (fun _ => .ok ()) (fun _ _ => ("/done", true)) "id"
    ⟨303, "https://x/y", ""⟩).1 rfl (by decide)

theorem pollLoop_total {Obj : Type} (env : PollEnv Obj) (hI : 0 < env.pollInterval) :
    ∀ fuel now k, env.deadline + 1 ≤ now + fuel → pollLoop env fuel now k ≠ none := by
  intro fuel
  induction fuel with
  | zero =>
    intro now k h
    rw [pollLoop]
    split
    · simp
    · split
      · simp
      · rename_i h2
        exact absurd (by omega : env.deadline < now) h2
  | succ fuel ih =>
    intro now k h
    rw [pollLoop]
    split
    · simp
    · split
      · simp
      · cases hr : env.responses k with
        | error e => simp
        | ok res =>
          cases hps : pollStep env.unmarshal env.check env.identifier res with
          | success loc => simp [hps]
          | failure e => simp [hps]
          | sleepRetry =>
            simp only [hps]
            split
            · simp
            · exact ih (now + env.pollInterval) (k + 1) (by omega)

theorem pollLoop_pending_timeout {Obj : Type} (env : PollEnv Obj)
    (hI : 0 < env.pollInterval) (hc : env.cancelAt = none)
    (hp : ∀ j r, env.responses j = .ok r →
      pollStep env.unmarshal env.check env.identifier r = .sleepRetry)
    (ha : ∀ j, ∃ r, env.responses j = .ok r) :
    ∀ fuel now k, env.deadline + 1 ≤ now + fuel →
      pollLoop env fuel now k =
        some (.error (.msg "timed out while provisioning")) := by
  intro fuel
  induction fuel with
  | zero =>
    intro now k h
    rw [pollLoop, if_neg (by simp [ctxErrAt, hc]), if_pos (by omega)]
  | succ fuel ih =>
    intro now k h
    by_cases hdl : env.deadline < now
    · rw [pollLoop, if_neg (by simp [ctxErrAt, hc]), if_pos hdl]
    · obtain ⟨r, hr⟩ := ha k
      rw [pollLoop, if_neg (by simp [ctxErrAt, hc]), if_neg hdl]
      simp only [hr, hp k r hr]
      rw [if_neg (by simp [ctxDoneDuringSleep, hc])]
      exact ih (now + env.pollInterval) (k + 1) (by omega)

/-- C4: with a positive poll interval and no cancellation, the loop always
returns within fuel `deadline - now + 1` sleeps (it never runs out of any
such fuel bound, whatever the server answers), and against a server that
answers every poll with a still-pending signal it returns exactly the
"timed out while provisioning" error. -/
theorem C4_poll_termination (Obj : Type) (env : PollEnv Obj)
    (hI : 0 < env.pollInterval) (hc : env.cancelAt = none) :
    (∀ fuel now k, env.deadline + 1 ≤ now + fuel → pollLoop env fuel now k ≠ none) ∧
    ((∀ j, ∃ r, env.responses j = .ok r ∧
        pollStep env.unmarshal env.check env.identifier r = .sleepRetry) →
      pollLoop env (env.deadline + 1) 0 0 =
        some (.error (.msg "timed out while provisioning"))) := by
  refine ⟨pollLoop_total env hI, fun hall => ?_⟩
  have hp : ∀ j r, env.responses j = .ok r →
      pollStep env.unmarshal env.check env.identifier r = .sleepRetry := by
    intro j r hr
    obtain ⟨r', hr', hps'⟩ := hall j
    rw [hr] at hr'
    obtain rfl : r' = r := by
      injection hr' with h
      exact h.symm
    exact hps'
  have ha : ∀ j, ∃ r, env.responses j = .ok r := by
    intro j
    obtain ⟨r, hr, _⟩ := hall j
    exact ⟨r, hr⟩
  exact pollLoop_pending_timeout env hI hc hp ha (env.deadline + 1) 0 0 (by omega)

/-- Witness for C4: the always-202-no-Location server times out. -/
theorem C4_poll_termination_witness :
    pollLoop envPending 21 0 0 =
      some (.error (.msg "timed out while provisioning")) :=
  (C4_poll_termination Unit envPending (by decide) rfl).2
    (fun _ => ⟨⟨202, "", ""⟩, rfl, rfl⟩)

/-- C5: with the context cancelled at instant `tc`, (a) any loop entry at or
after `tc` returns the cancellation sentinel itself — unwrapped, and not
the timeout error, since `ctx.Err()` is checked before the deadline; and
(b) an iteration that falls through to the sleep during which the
cancellation fires returns the sentinel from the cancellable sleep. -/
theorem C5_cancellation (Obj : Type) (env : PollEnv Obj) (tc : Nat)
    (hc : env.cancelAt = some tc) :
    (∀ fuel now k, tc ≤ now →
      pollLoop env fuel now k = some (.error .ctxCanceled)) ∧
    (∀ fuel now k res, now < tc → tc < now + env.pollInterval →
      ¬env.deadline < now → env.responses k = .ok res →
      pollStep env.unmarshal env.check env.identifier res = .sleepRetry →
      pollLoop env (fuel + 1) now k = some (.error .ctxCanceled)) := by
  constructor
  · intro fuel now k hle
    cases fuel with
    | zero => rw [pollLoop, if_pos (by simp [ctxErrAt, hc, hle])]
    | succ fuel => rw [pollLoop, if_pos (by simp [ctxErrAt, hc, hle])]
  · intro fuel now k res h1 h2 hdl hr hps
    rw [pollLoop, if_neg (by simp [ctxErrAt, hc]; omega), if_neg hdl]
    simp only [hr, hps]
    rw [if_pos (by simp [ctxDoneDuringSleep, hc, h2])]

/-- Witness for C5: cancellation at instant 0 beats the first iteration. -/
theorem C5_cancellation_witness :
    pollLoop { envPending with cancelAt := some 0 } 5 0 0 =
      some (.error .ctxCanceled) :=
  (C5_cancellation Unit { envPending with cancelAt := some 0 } 0 rfl).1 5 0 0
    (by omega)

/-- C10: an iteration that receives 200 with no Location and a body that does
not decode returns the wrapped decode error immediately — for any
completion predicate (it is never invoked), with no sleep and no further
poll (the result does not depend on the fuel or on later responses). -/
theorem C10_decode_failure (Obj : Type) (env : PollEnv Obj) (fuel now k : Nat)
    (res : Response) (emsg : String)
    (hctx : ctxErrAt env.cancelAt now = false)
    (hdl : ¬env.deadline < now)
    (hr : env.responses k = .ok res)
    (hst : res.statusCode = 200) (hloc : res.location = "")
    (hdec : env.unmarshal res.body = .error emsg) :
    pollLoop env (fuel + 1) now k =
      some (.error (.wrapped "could not umnarshal ok json: " (.msg emsg))) ∧
    ∀ check2 : Obj → String → String × Bool,
      pollStep env.unmarshal check2 env.identifier res =
        .failure (.wrapped "could not umnarshal ok json: " (.msg emsg)) := by
  have hstep : ∀ check2 : Obj → String → String × Bool,
      pollStep env.unmarshal check2 env.identifier res =
        .failure (.wrapped "could not umnarshal ok json: " (.msg emsg)) := by
    intro check2
    simp [pollStep, hst, hloc, hdec]
  refine ⟨?_, hstep⟩
  rw [pollLoop, if_neg (by simp [hctx]), if_neg hdl]
  simp only [hr, hstep env.check]

/-- Witness for C10: a concrete undecodable 200 body. -/
theorem C10_decode_failure_witness :
    pollLoop { envPending with responses := fun _ => .ok ⟨200, "", "x"⟩, unmarshal := fun _ => .error "invalid" } 1 0 0 =
      some (.error (.wrapped "could not umnarshal ok json: " (.msg "invalid"))) :=
  (C10_decode_failure Unit
    { envPending with responses := fun _ => .ok ⟨200, "", "x"⟩, unmarshal := fun _ => .error "invalid" }
    0 0 0 ⟨200, "", "x"⟩ "invalid" rfl (by omega) rfl rfl rfl rfl).1

end Mythic
